import Mathlib

/-!
Shallow embedding of the core of the respiratory-sound capture app:
the signal-analysis pipeline (src/src/utils/fft.js), the media store
(src/src/services/storageService.js, src/unnamed/part_000), the record
screen lifecycle handlers (src/app/(tabs)/record.tsx) and the audio
service (src/src/services/audioService.js).

JavaScript numbers are embedded as real numbers; asynchronous I/O is
embedded as explicit state passing over a store state that records the
persisted metadata index, the set of files existing on the filesystem,
and fault-injection flags for the environment reads the code performs.
A JavaScript run that throws is embedded as an `Option`/`Except` failure.
-/

set_option maxHeartbeats 1000000

namespace Stetho

/-! ## Signal processor: src/src/utils/fft.js -/

/-- The `Complex` class of fft.js: `real` and `imag` components. -/
structure Complex where
  real : ℝ
  imag : ℝ

/-- Method `add` of the `Complex` class. -/
def Complex.add (a b : Complex) : Complex :=
  ⟨a.real + b.real, a.imag + b.imag⟩

/-- Method `subtract` of the `Complex` class. -/
def Complex.subtract (a b : Complex) : Complex :=
  ⟨a.real - b.real, a.imag - b.imag⟩

/-- Method `multiply` of the `Complex` class. -/
def Complex.multiply (a b : Complex) : Complex :=
  ⟨a.real * b.real - a.imag * b.imag, a.real * b.imag + a.imag * b.real⟩

/-- Method `magnitude` of the `Complex` class: `sqrt(real² + imag²)`. -/
noncomputable def Complex.magnitude (a : Complex) : ℝ :=
  Real.sqrt (a.real * a.real + a.imag * a.imag)

/-- The even-indexed elements of a list: the `even` array built by the
splitting loop of `fft` (`i % 2 === 0`). -/
def evens : List α → List α
  | [] => []
  | [a] => [a]
  | a :: _ :: t => a :: evens t

/-- The odd-indexed elements of a list: the `odd` array built by the
splitting loop of `fft`. -/
def odds : List α → List α
  | [] => []
  | _ :: t => evens t

/-- Run an option-valued function over a list, aborting at the first
failure.  This embeds a JavaScript `for` loop whose body may throw
(e.g. an out-of-range element access): the loop either completes with
all results or the whole call aborts. -/
def mapOpt (f : α → Option β) : List α → Option (List β)
  | [] => some []
  | a :: t =>
    match f a, mapOpt f t with
    | some b, some bs => some (b :: bs)
    | _, _ => none

/-- One iteration of the combine loop of `fft` at index `k`:
`twiddle = (cos θ, sin θ)` with `θ = -2·π·k / n`, `oddTerm = twiddle·odd[k]`,
producing `(even[k] + oddTerm, even[k] − oddTerm)`.  The element accesses
`even[k]` and `odd[k]` abort the run when out of range: in JavaScript an
out-of-range index yields `undefined` and the subsequent `.real`/`.imag`
field access throws a `TypeError`. -/
noncomputable def combineStep (e o : List Complex) (n k : ℕ) : Option (Complex × Complex) :=
  match e.get? k, o.get? k with
  | some ek, some ok =>
    let angle : ℝ := (-2) * Real.pi * (k : ℝ) / (n : ℝ)
    let twiddle : Complex := ⟨Real.cos angle, Real.sin angle⟩
    let oddTerm := twiddle.multiply ok
    some (ek.add oddTerm, ek.subtract oddTerm)
  | _, _ => none

/-- The combine loop of `fft`: `for (k = 0; k < n / 2; k++)` runs
`⌈n / 2⌉ = (n + 1) / 2` times (the bound `n / 2` is a JavaScript float).
On completion, the writes `result[k] = …` and `result[k + n/2] = …` lay
the first components out before the second components.  (For odd `n`
the loop aborts on an out-of-range access of `odd[k]` before returning,
so the fractional write indices of that case never produce a result.) -/
noncomputable def combine (e o : List Complex) (n : ℕ) : Option (List Complex) :=
  match mapOpt (combineStep e o n) (List.range ((n + 1) / 2)) with
  | some ps => some (ps.map Prod.fst ++ ps.map Prod.snd)
  | none => none

/-- Fuelled form of the recursive `fft` of fft.js: base case for length
`≤ 1`, otherwise recurse on the even- and odd-indexed halves and combine.
The fuel only serves termination; `fft` below supplies enough fuel, and
`fft_unfold` recovers the exact recursion of the source. -/
noncomputable def fftFuel : ℕ → List Complex → Option (List Complex)
  | 0, _ => none
  | fuel + 1, signal =>
    if signal.length ≤ 1 then some signal
    else
      match fftFuel fuel (evens signal), fftFuel fuel (odds signal) with
      | some evenFFT, some oddFFT => combine evenFFT oddFFT signal.length
      | _, _ => none

/-- `fft(signal)` of fft.js (Cooley-Tukey, recursive). -/
noncomputable def fft (signal : List Complex) : Option (List Complex) :=
  fftFuel (signal.length + 1) signal

/-- `padToPowerOfTwo(array, targetLength)` of fft.js: an array of
`targetLength` zeros whose first `min(array.length, targetLength)`
entries are copied from `array`. -/
def padToPowerOfTwo (array : List ℝ) (targetLength : ℕ) : List ℝ :=
  array.take targetLength ++ List.replicate (targetLength - array.length) 0

/-- `applyHannWindow(array)` of fft.js:
`value * (0.5 * (1 − cos(2·π·index / (array.length − 1))))`. -/
noncomputable def applyHannWindow (array : List ℝ) : List ℝ :=
  array.mapIdx (fun index value =>
    value * (0.5 * (1 - Real.cos (2 * Real.pi * (index : ℝ) / ((array.length : ℝ) - 1)))))

/-- `getSpectrum(samples, fftSize)` of fft.js: pad, window, lift to
complex, FFT, then magnitudes of the first half of the spectrum. -/
noncomputable def getSpectrum (samples : List ℝ) (fftSize : ℕ) : Option (List ℝ) :=
  let paddedSamples := padToPowerOfTwo samples fftSize
  let windowedSamples := applyHannWindow paddedSamples
  let complexSamples := windowedSamples.map (fun sample => Complex.mk sample 0)
  match fft complexSamples with
  | some spectrum =>
    some ((spectrum.take (spectrum.length / 2)).map Complex.magnitude)
  | none => none

/-- The frame count of `generateSpectrogram`:
`Math.floor((audioBuffer.length - fftSize) / hopSize) + 1`, computed over
the integers with floor division and clamped at `0` by the loop bound
(the loop `i < numFrames` does not run for a non-positive count). -/
def numFrames (len fftSize hopSize : ℕ) : ℕ :=
  (((len : ℤ) - (fftSize : ℤ)).fdiv (hopSize : ℤ) + 1).toNat

/-- The frame `audioBuffer.slice(start, start + fftSize)` with
`start = i * hopSize`. -/
def frameAt (audioBuffer : List ℝ) (fftSize hopSize i : ℕ) : List ℝ :=
  (audioBuffer.drop (i * hopSize)).take fftSize

/-- `generateSpectrogram(audioBuffer, fftSize, hopSize)` of fft.js:
one spectrum per frame, each magnitude mapped through
`Math.max(0, Math.min(1, (20·log10(value + 1e-10) + 100) / 100))`. -/
noncomputable def generateSpectrogram (audioBuffer : List ℝ) (fftSize hopSize : ℕ) :
    Option (List (List ℝ)) :=
  mapOpt (fun i =>
      match getSpectrum (frameAt audioBuffer fftSize hopSize i) fftSize with
      | some spectrum =>
        some (spectrum.map (fun value =>
          max 0 (min 1 ((20 * Real.logb 10 (value + 1e-10) + 100) / 100))))
      | none => none)
    (List.range (numFrames audioBuffer.length fftSize hopSize))

/-- Spec-side formula (for the refinement claim about spectrogram cell
values): base-10 logarithm, as the spec writes `log10`. -/
noncomputable def specLog10 (x : ℝ) : ℝ := Real.logb 10 x

/-- Spec-side formula: clamping into `[0, 1]`. -/
noncomputable def specClamp01 (x : ℝ) : ℝ := max 0 (min 1 x)

/-- Spec-side formula for one spectrogram cell, written from the spec's
words: `clamp((20·log10(m + 1e-10) + 100) / 100, 0, 1)` applied to the
magnitude `m` of a frequency bin. -/
noncomputable def specCellValue (m : ℝ) : ℝ :=
  specClamp01 ((20 * specLog10 (m + 1e-10) + 100) / 100)

/-! ## Media store: src/src/services/storageService.js

The persisted state is embedded explicitly:
* `idx` is the AsyncStorage document under `RECORDINGS_METADATA_KEY`
  (`absent` = no value stored, `corrupt` = a value `JSON.parse` throws on,
  `entries` = a parsed array of records);
* `files` is the set of paths that exist on the filesystem, as a list
  queried by membership (`FileSystem.getInfoAsync(uri).exists`, and
  `copyAsync` succeeds exactly when the source path is present);
* `readFails` injects a failure of `AsyncStorage.getItem`, and
  `statFails` injects a failure of `FileSystem.getInfoAsync`, modelling
  the environment errors the service catches.

The managed directory itself (`ensureDirectoryExists`) only creates a
folder and is not represented.  `AsyncStorage.setItem` is modelled as
infallible.  `generateUUID()` (`Math.random`) and `Date.now()` are
nondeterministic in JavaScript, so their draws are inputs of the
embedded operations. -/

/-- A stored recording record, with the fields `saveRecording` writes.
The attached analysis payload is carried opaquely as its serialized
text; no verified property inspects its structure. -/
structure Recording where
  id : String
  filename : String
  uri : String
  createdAt : String
  duration : ℚ
  size : ℚ
  analysisResult : Option String
  source : String
deriving DecidableEq

/-- A partial record: the dynamic objects JavaScript spreads into a
record (`{...recording, ...updates}` and the `metadata` seed of
`saveRecording`), restricted to the record's own schema.  A `some`
field is a key present in the object. -/
structure RecordingPatch where
  id : Option String := none
  filename : Option String := none
  uri : Option String := none
  createdAt : Option String := none
  duration : Option ℚ := none
  size : Option ℚ := none
  analysisResult : Option (Option String) := none
  source : Option String := none
deriving DecidableEq

/-- JavaScript object spread `{...recording, ...patch}`: every key
present in `patch` overwrites the corresponding field of `recording`. -/
def spreadRecording (recording : Recording) (patch : RecordingPatch) : Recording where
  id := patch.id.getD recording.id
  filename := patch.filename.getD recording.filename
  uri := patch.uri.getD recording.uri
  createdAt := patch.createdAt.getD recording.createdAt
  duration := patch.duration.getD recording.duration
  size := patch.size.getD recording.size
  analysisResult := patch.analysisResult.getD recording.analysisResult
  source := patch.source.getD recording.source

/-- The AsyncStorage document under the recordings metadata key. -/
inductive IndexVal
  | absent
  | corrupt
  | entries (recs : List Recording)
deriving DecidableEq

/-- The explicit store state (see the section comment). -/
structure StoreState where
  idx : IndexVal
  files : List String
  readFails : Bool
  statFails : Bool
deriving DecidableEq

/-- `RECORDINGS_DIRECTORY`; the platform-dependent
`FileSystem.cacheDirectory` prefix is abstracted into the constant. -/
def RECORDINGS_DIRECTORY : String := "stethoscope_recordings/"

/-- The environment errors `getRecordings` can encounter and catches. -/
inductive JsError
  | readError
  | parseError
  | statError
deriving DecidableEq

/-- The typed failure of the store: `saveRecording` rethrows every
internal error as `Error('Failed to save recording')`, the store's
I/O failure signal. -/
inductive StorageErr
  | ioError
deriving DecidableEq

/-- The file-existence verification loop of `getRecordings`: push each
record whose `uri` still exists.  A failing `getInfoAsync` aborts the
loop with an error (caught by the caller). -/
def filterExisting (s : StoreState) : List Recording → Except JsError (List Recording)
  | [] => .ok []
  | recording :: rest =>
    if s.statFails then .error .statError
    else
      match filterExisting s rest with
      | .error e => .error e
      | .ok valid =>
        .ok (if s.files.contains recording.uri then recording :: valid else valid)

/-- The body of `getRecordings` before its `catch`: read the index
(`null` parses to `[]`), drop records whose file is missing, and rewrite
the stored list when anything was dropped. -/
def getRecordingsInner (s : StoreState) : Except JsError (List Recording × StoreState) :=
  if s.readFails then .error .readError
  else
    match s.idx with
    | .corrupt => .error .parseError
    | .absent => .ok ([], s)
    | .entries recordings =>
      match filterExisting s recordings with
      | .error e => .error e
      | .ok validRecordings =>
        if validRecordings.length < recordings.length then
          .ok (validRecordings, { s with idx := .entries validRecordings })
        else
          .ok (validRecordings, s)

/-- `getRecordings()` of storageService.js: any error is caught and the
empty list returned, so the call never fails at its interface. -/
def getRecordings (s : StoreState) : List Recording × StoreState :=
  match getRecordingsInner s with
  | .ok r => r
  | .error _ => ([], s)

/-- `saveRecording(uri, metadata)` of storageService.js, with the draws
of `generateUUID()` (`freshId`), `Date.now()` (`ts`) and
`new Date().toISOString()` (`iso`) as inputs.  The copy runs first; any
subsequent index read failure is rethrown after the file was already
relocated (the copied file stays).  The record is the defaults object
spread with the caller's `metadata`
(`duration: metadata.duration || 0`, `size: metadata.size || 0`). -/
def saveRecording (uri : String) (metadata : RecordingPatch) (freshId ts iso : String)
    (s : StoreState) : Except StorageErr Recording × StoreState :=
  let filename := "stetho-" ++ ts ++ ".m4a"
  let destinationUri := RECORDINGS_DIRECTORY ++ filename
  if s.files.contains uri then
    let s1 := { s with files := destinationUri :: s.files }
    let base : Recording :=
      { id := freshId
        filename := filename
        uri := destinationUri
        createdAt := iso
        duration := metadata.duration.getD 0
        size := metadata.size.getD 0
        analysisResult := none
        source := "stethoscope" }
    let recording := spreadRecording base metadata
    if s.readFails then (.error .ioError, s1)
    else
      match s.idx with
      | .corrupt => (.error .ioError, s1)
      | .absent => (.ok recording, { s1 with idx := .entries [recording] })
      | .entries existing =>
        (.ok recording, { s1 with idx := .entries (recording :: existing) })
  else (.error .ioError, s)

/-- `updateRecording(id, updates)` of storageService.js: reconcile via
`getRecordings`, spread `updates` over the matching record, write the
whole list back, and return the updated record when one matches (there
is no not-found failure). -/
def updateRecording (id : String) (updates : RecordingPatch) (s : StoreState) :
    Option Recording × StoreState :=
  let res := getRecordings s
  let updatedRecordings := res.1.map (fun recording =>
    if recording.id = id then spreadRecording recording updates else recording)
  (updatedRecordings.find? (fun r => r.id == id),
   { res.2 with idx := .entries updatedRecordings })

/-- External deletion of a backing file: the path no longer exists. -/
def removeFile (uri : String) (s : StoreState) : StoreState :=
  { s with files := s.files.filter (fun f => f ≠ uri) }

/-- Whether the stored index still references a given record. -/
def indexMentions (e : Recording) (s : StoreState) : Bool :=
  match s.idx with
  | .entries l => l.contains e
  | _ => false

/-- One `saveRecording` call with its nondeterministic draws. -/
structure SaveCall where
  uri : String
  metadata : RecordingPatch
  freshId : String
  ts : String
  iso : String
deriving DecidableEq

/-- A sequence of `saveRecording` calls under the single-writer
discipline (each call completes before the next starts), stopping at
the first failure. -/
def runSaves : List SaveCall → StoreState → Except StorageErr (List Recording) × StoreState
  | [], s => (.ok [], s)
  | c :: rest, s =>
    match saveRecording c.uri c.metadata c.freshId c.ts c.iso s with
    | (.ok r, s1) =>
      match runSaves rest s1 with
      | (.ok rs, s2) => (.ok (r :: rs), s2)
      | (.error e, s2) => (.error e, s2)
    | (.error e, s1) => (.error e, s1)

/-! ## Record screen and audio service lifecycle:
src/app/(tabs)/record.tsx and src/src/services/audioService.js -/

/-- The lifecycle-relevant state of the record screen:
`hasRecording` is `recording.current !== null`, the rest are the
`isRecording` / `isPaused` state hooks and the interval timer handle. -/
structure RecordScreenState where
  hasRecording : Bool
  isRecording : Bool
  isPaused : Bool
  timerOn : Bool
deriving DecidableEq

/-- An error surfaced to the caller of a screen handler.  The handlers
wrap their body in `try/catch` and log, so no value of this type is
ever produced; the channel exists to state that fact. -/
inductive UiError
  | deviceError
deriving DecidableEq

/-- `handlePauseRecording` of record.tsx: with no active recording the
handler returns silently; otherwise it toggles between pause and resume
(device calls modelled as succeeding; a device error would be caught
and logged, not rethrown). -/
def handlePauseRecording (s : RecordScreenState) : RecordScreenState × Option UiError :=
  if !s.hasRecording then (s, none)
  else if s.isPaused then ({ s with isPaused := false, timerOn := true }, none)
  else ({ s with isPaused := true, timerOn := false }, none)

/-- The module-level state of audioService.js: the `recording` handle
(carrying its URI when active) and the `recordingStatus` fields the
stop path reads. -/
structure AudioServiceState where
  recording : Option String
  statusDurationMillis : ℚ
  statusMetering : ℚ
deriving DecidableEq

/-- The value `stopRecording` resolves with. -/
structure StopResult where
  uri : String
  duration : ℚ
  size : ℚ
  metering : ℚ
deriving DecidableEq

/-- The audio service failure raised on a wrong-state stop:
`Error('No active recording')`. -/
inductive AudioErr
  | noActiveRecording
deriving DecidableEq

/-- `stopRecording` of audioService.js, with the file-size lookup
(`FileSystem.getInfoAsync(uri).size`) supplied by the environment:
with no active recording it throws; otherwise it finalizes the file,
clears the module handle and returns uri, duration (milliseconds
converted to seconds), size and metering. -/
def stopRecording (getSize : String → ℚ) (s : AudioServiceState) :
    Except AudioErr StopResult × AudioServiceState :=
  match s.recording with
  | none => (.error .noActiveRecording, s)
  | some uri =>
    (.ok ⟨uri, s.statusDurationMillis / 1000, getSize uri, s.statusMetering⟩,
     { s with recording := none })

/-! ## Helper lemmas about the list combinators -/

theorem length_evens : ∀ l : List α, (evens l).length = (l.length + 1) / 2
  | [] => by simp [evens]
  | [_] => by simp [evens]
  | _ :: _ :: t => by
    simp only [evens, List.length_cons, length_evens t]
    omega

theorem length_odds (l : List α) : (odds l).length = l.length / 2 := by
  cases l with
  | nil => simp [odds]
  | cons a t => simp only [odds, length_evens, List.length_cons]

theorem mapOpt_length {f : α → Option β} {l : List α} {r : List β}
    (h : mapOpt f l = some r) : r.length = l.length := by
  induction l generalizing r with
  | nil => simp only [mapOpt, Option.some.injEq] at h; subst h; rfl
  | cons a t ih =>
    simp only [mapOpt] at h
    cases hfa : f a <;> rw [hfa] at h
    · exact absurd h (by simp)
    · cases hmt : mapOpt f t <;> rw [hmt] at h
      · exact absurd h (by simp)
      · cases h
        simp [ih hmt]

theorem mapOpt_some_of_forall {f : α → Option β} {l : List α}
    (h : ∀ a ∈ l, ∃ b, f a = some b) : ∃ r, mapOpt f l = some r := by
  induction l with
  | nil => exact ⟨[], rfl⟩
  | cons a t ih =>
    obtain ⟨b, hb⟩ := h a (List.mem_cons_self a t)
    obtain ⟨r, hr⟩ := ih (fun x hx => h x (List.mem_cons_of_mem a hx))
    exact ⟨b :: r, by simp [mapOpt, hb, hr]⟩

theorem mapOpt_forall_of_some {f : α → Option β} {l : List α} {r : List β}
    (h : mapOpt f l = some r) : ∀ a ∈ l, ∃ b, f a = some b := by
  induction l generalizing r with
  | nil => intro a ha; exact absurd ha (List.not_mem_nil a)
  | cons a t ih =>
    intro x hx
    simp only [mapOpt] at h
    cases hfa : f a <;> rw [hfa] at h
    · exact absurd h (by simp)
    · cases hmt : mapOpt f t <;> rw [hmt] at h
      · exact absurd h (by simp)
      · rcases List.mem_cons.mp hx with rfl | hxt
        · exact ⟨_, hfa⟩
        · exact ih hmt x hxt

theorem mapOpt_none_of_mem {f : α → Option β} {l : List α} {a : α}
    (ha : a ∈ l) (hfa : f a = none) : mapOpt f l = none := by
  induction l with
  | nil => exact absurd ha (List.not_mem_nil a)
  | cons x t ih =>
    rcases List.mem_cons.mp ha with rfl | hat
    · simp [mapOpt, hfa]
    · simp only [mapOpt, ih hat]
      cases f x <;> rfl

theorem mapOpt_mem {f : α → Option β} {l : List α} {r : List β} {b : β}
    (h : mapOpt f l = some r) (hb : b ∈ r) : ∃ a ∈ l, f a = some b := by
  induction l generalizing r with
  | nil =>
    simp only [mapOpt, Option.some.injEq] at h
    subst h
    exact absurd hb (List.not_mem_nil b)
  | cons a t ih =>
    simp only [mapOpt] at h
    cases hfa : f a <;> rw [hfa] at h
    · exact absurd h (by simp)
    · cases hmt : mapOpt f t <;> rw [hmt] at h
      · exact absurd h (by simp)
      · cases h
        rcases List.mem_cons.mp hb with rfl | hbr
        · exact ⟨a, List.mem_cons_self a t, hfa⟩
        · obtain ⟨x, hx, hfx⟩ := ih hmt hbr
          exact ⟨x, List.mem_cons_of_mem a hx, hfx⟩

/-! ## The recursion rule of `fft` -/

theorem fftFuel_eq_fft : ∀ (n : ℕ) (l : List Complex), l.length ≤ n →
    ∀ f, l.length < f → fftFuel f l = fft l := by
  intro n
  induction n with
  | zero =>
    intro l hl f hf
    have hnil : l = [] := List.length_eq_zero.mp (Nat.le_zero.mp hl)
    subst hnil
    obtain ⟨f, rfl⟩ : ∃ g, f = g + 1 := ⟨f - 1, by omega⟩
    simp [fftFuel, fft]
  | succ n ih =>
    intro l hl f hf
    obtain ⟨f, rfl⟩ : ∃ g, f = g + 1 := ⟨f - 1, by omega⟩
    show fftFuel (f + 1) l = fftFuel (l.length + 1) l
    simp only [fftFuel]
    by_cases h1 : l.length ≤ 1
    · simp [h1]
    · simp only [if_neg h1]
      have he : (evens l).length ≤ n := by rw [length_evens]; omega
      have ho : (odds l).length ≤ n := by rw [length_odds]; omega
      rw [ih (evens l) he f (by rw [length_evens]; omega),
          ih (odds l) ho f (by rw [length_odds]; omega),
          ih (evens l) he l.length (by rw [length_evens]; omega),
          ih (odds l) ho l.length (by rw [length_odds]; omega)]

theorem fft_unfold (l : List Complex) :
    fft l = if l.length ≤ 1 then some l
      else
        match fft (evens l), fft (odds l) with
        | some e, some o => combine e o l.length
        | _, _ => none := by
  show fftFuel (l.length + 1) l = _
  simp only [fftFuel]
  by_cases h1 : l.length ≤ 1
  · simp [h1]
  · simp only [if_neg h1]
    rw [fftFuel_eq_fft (evens l).length (evens l) le_rfl l.length
          (by rw [length_evens]; omega),
        fftFuel_eq_fft (odds l).length (odds l) le_rfl l.length
          (by rw [length_odds]; omega)]

/-! ## Behaviour of the combine loop -/

theorem combineStep_some {e o : List Complex} {n k : ℕ}
    (hk : k < e.length) (hk' : k < o.length) :
    ∃ p, combineStep e o n k = some p := by
  simp only [combineStep]
  rw [List.get?_eq_get hk, List.get?_eq_get hk']
  exact ⟨_, rfl⟩

theorem combineStep_none {e o : List Complex} {n k : ℕ}
    (hk' : o.length ≤ k) : combineStep e o n k = none := by
  simp only [combineStep]
  rw [List.get?_eq_none.mpr hk']
  cases e.get? k <;> rfl

theorem combineStep_bound {e o : List Complex} {n k : ℕ} {p : Complex × Complex}
    (h : combineStep e o n k = some p) : k < o.length := by
  simp only [combineStep] at h
  cases he : e.get? k <;> rw [he] at h
  · exact absurd h (by simp)
  · cases ho : o.get? k <;> rw [ho] at h
    · exact absurd h (by simp)
    · obtain ⟨hlt, -⟩ := List.get?_eq_some.mp ho
      exact hlt

theorem combine_some {e o : List Complex} {n : ℕ}
    (he : (n + 1) / 2 ≤ e.length) (ho : (n + 1) / 2 ≤ o.length) :
    ∃ r, combine e o n = some r ∧ r.length = 2 * ((n + 1) / 2) := by
  obtain ⟨ps, hps⟩ := mapOpt_some_of_forall
    (f := combineStep e o n) (l := List.range ((n + 1) / 2))
    (fun k hk => combineStep_some
      (lt_of_lt_of_le (List.mem_range.mp hk) he)
      (lt_of_lt_of_le (List.mem_range.mp hk) ho))
  have hlen := mapOpt_length hps
  refine ⟨ps.map Prod.fst ++ ps.map Prod.snd, ?_, ?_⟩
  · simp only [combine, hps]
  · simp only [List.length_append, List.length_map, hlen, List.length_range]
    omega

theorem combine_none {e o : List Complex} {n : ℕ}
    (ho : o.length < (n + 1) / 2) : combine e o n = none := by
  rw [combine,
    mapOpt_none_of_mem (List.mem_range.mpr ho) (combineStep_none le_rfl)]

theorem combine_length {e o r : List Complex} {n : ℕ}
    (h : combine e o n = some r) :
    r.length = 2 * ((n + 1) / 2) ∧ (n + 1) / 2 ≤ o.length := by
  simp only [combine] at h
  cases hm : mapOpt (combineStep e o n) (List.range ((n + 1) / 2)) <;> rw [hm] at h
  · exact absurd h (by simp)
  · cases h
    have hlen := mapOpt_length hm
    constructor
    · simp only [List.length_append, List.length_map, hlen, List.length_range]
      omega
    · rcases Nat.eq_zero_or_pos ((n + 1) / 2) with hz | hpos
      · omega
      · obtain ⟨p, hp⟩ := mapOpt_forall_of_some hm ((n + 1) / 2 - 1)
          (List.mem_range.mpr (by omega))
        have := combineStep_bound hp
        omega

/-! ## The FFT succeeds exactly on power-of-two lengths -/

theorem fft_pow2 : ∀ (k : ℕ) (l : List Complex), l.length = 2 ^ k →
    ∃ r, fft l = some r ∧ r.length = l.length := by
  intro k
  induction k with
  | zero =>
    intro l hl
    rw [fft_unfold, if_pos (by rw [hl]; norm_num)]
    exact ⟨l, rfl, rfl⟩
  | succ k ih =>
    intro l hl
    have hk1 : (1 : ℕ) ≤ 2 ^ k := Nat.one_le_two_pow
    have h2 : ¬ l.length ≤ 1 := by rw [hl, pow_succ]; omega
    rw [fft_unfold, if_neg h2]
    have hev : (evens l).length = 2 ^ k := by rw [length_evens, hl, pow_succ]; omega
    have hod : (odds l).length = 2 ^ k := by rw [length_odds, hl, pow_succ]; omega
    obtain ⟨e, he, hel⟩ := ih (evens l) hev
    obtain ⟨o, ho, hol⟩ := ih (odds l) hod
    rw [he, ho]
    have hhalf : (l.length + 1) / 2 = 2 ^ k := by rw [hl, pow_succ]; omega
    obtain ⟨r, hr, hrl⟩ := combine_some (e := e) (o := o) (n := l.length)
      (by rw [hhalf, hel, hev]) (by rw [hhalf, hol, hod])
    exact ⟨r, hr, by rw [hrl, hhalf, hl, pow_succ]; omega⟩

theorem fft_length : ∀ (n : ℕ) (l : List Complex), l.length ≤ n →
    ∀ r, fft l = some r → r.length = l.length := by
  intro n
  induction n with
  | zero =>
    intro l hl r hr
    rw [fft_unfold, if_pos (by omega)] at hr
    cases hr
    rfl
  | succ n ih =>
    intro l hl r hr
    rw [fft_unfold] at hr
    by_cases h1 : l.length ≤ 1
    · rw [if_pos h1] at hr
      cases hr
      rfl
    · rw [if_neg h1] at hr
      cases he : fft (evens l) <;> cases ho : fft (odds l) <;> rw [he, ho] at hr
      · exact absurd hr (by simp)
      · exact absurd hr (by simp)
      · exact absurd hr (by simp)
      rename_i e o
      have hel : e.length = (evens l).length :=
        ih (evens l) (by rw [length_evens]; omega) e he
      have hol : o.length = (odds l).length :=
        ih (odds l) (by rw [length_odds]; omega) o ho
      obtain ⟨hrl, hob⟩ := combine_length hr
      rw [hol, length_odds] at hob
      rw [hrl]
      omega

theorem fft_not_pow2 : ∀ (n : ℕ) (l : List Complex), l.length ≤ n →
    2 ≤ l.length → (∀ k, l.length ≠ 2 ^ k) → fft l = none := by
  intro n
  induction n with
  | zero => intro l hl h2 _; omega
  | succ n ih =>
    intro l hl h2 hnp
    rw [fft_unfold, if_neg (by omega)]
    rcases Nat.even_or_odd l.length with heven | hodd
    · obtain ⟨m, hm⟩ := heven
      have hne2 : l.length ≠ 2 := by simpa using hnp 1
      have hev : (evens l).length = m := by rw [length_evens]; omega
      have hnone : fft (evens l) = none := by
        apply ih (evens l) (by omega) (by omega)
        intro k hk
        exact hnp (k + 1) (by rw [pow_succ]; omega)
      rw [hnone]
    · cases he : fft (evens l) <;> cases ho : fft (odds l)
      · rfl
      · rfl
      · rfl
      rename_i e o
      obtain ⟨m, hm⟩ := hodd
      have hol : o.length = m := by
        rw [fft_length (odds l).length (odds l) le_rfl o ho, length_odds]
        omega
      exact combine_none (by omega)

/-! ## The spectrum pipeline -/

theorem length_padToPowerOfTwo (a : List ℝ) (t : ℕ) :
    (padToPowerOfTwo a t).length = t := by
  simp only [padToPowerOfTwo, List.length_append, List.length_take,
    List.length_replicate]
  omega

theorem length_applyHannWindow (a : List ℝ) :
    (applyHannWindow a).length = a.length := by
  simp only [applyHannWindow, List.length_mapIdx]

theorem getSpectrum_eq (samples : List ℝ) (fftSize : ℕ) :
    getSpectrum samples fftSize =
      match fft ((applyHannWindow (padToPowerOfTwo samples fftSize)).map
          (fun sample => Complex.mk sample 0)) with
      | some spectrum =>
        some ((spectrum.take (spectrum.length / 2)).map Complex.magnitude)
      | none => none := rfl

theorem getSpectrum_pow2 (samples : List ℝ) (k : ℕ) :
    ∃ spec, getSpectrum samples (2 ^ k) = some spec ∧ spec.length = 2 ^ k / 2 := by
  have hlen : ((applyHannWindow (padToPowerOfTwo samples (2 ^ k))).map
      (fun sample => Complex.mk sample 0)).length = 2 ^ k := by
    simp [List.length_map, length_applyHannWindow, length_padToPowerOfTwo]
  obtain ⟨r, hr, hrl⟩ := fft_pow2 k _ hlen
  rw [hlen] at hrl
  refine ⟨(r.take (r.length / 2)).map Complex.magnitude, ?_, ?_⟩
  · rw [getSpectrum_eq, hr]
  · simp only [List.length_map, List.length_take, hrl]
    omega

theorem getSpectrum_zero (samples : List ℝ) : getSpectrum samples 0 = some [] := by
  rw [getSpectrum_eq]
  have hpad : padToPowerOfTwo samples 0 = [] := by
    simp [padToPowerOfTwo]
  rw [hpad]
  rfl

theorem numFrames_of_le {L f h : ℕ} (hf : f ≤ L) :
    numFrames L f h = (L - f) / h + 1 := by
  unfold numFrames
  have h1 : (L : ℤ) - (f : ℤ) = ((L - f : ℕ) : ℤ) := by omega
  rw [h1, ← Int.ofNat_fdiv]
  generalize (L - f) / h = X
  omega

/-! ## Claims about the signal processor -/

/-- C2 (spectrogram shape): for every input buffer of length `L ≥ 1024`,
`generateSpectrogram` with `fftSize = 1024` and `hopSize = 512` returns
exactly `⌊(L − 1024) / 512⌋ + 1` frames, each of length `512 = fftSize/2`,
and every value of every frame lies in `[0, 1]`. -/
theorem spectrogram_shape_C2 (buffer : List ℝ) (h : 1024 ≤ buffer.length) :
    ∃ S, generateSpectrogram buffer 1024 512 = some S ∧
      S.length = (buffer.length - 1024) / 512 + 1 ∧
      ∀ frame ∈ S, frame.length = 512 ∧ ∀ v ∈ frame, 0 ≤ v ∧ v ≤ 1 := by
  have h1024 : (1024 : ℕ) = 2 ^ 10 := by norm_num
  have hstep : ∀ i ∈ List.range (numFrames buffer.length 1024 512),
      ∃ fr, (fun i =>
        match getSpectrum (frameAt buffer 1024 512 i) 1024 with
        | some spectrum =>
          some (spectrum.map (fun value =>
            max 0 (min 1 ((20 * Real.logb 10 (value + 1e-10) + 100) / 100))))
        | none => none) i = some fr := by
    intro i _
    obtain ⟨spec, hs, -⟩ := getSpectrum_pow2 (frameAt buffer 1024 512 i) 10
    rw [← h1024] at hs
    refine ⟨spec.map (fun value =>
      max 0 (min 1 ((20 * Real.logb 10 (value + 1e-10) + 100) / 100))), ?_⟩
    simp only [hs]
  obtain ⟨S, hS⟩ := mapOpt_some_of_forall hstep
  have hgen : generateSpectrogram buffer 1024 512 = some S := hS
  refine ⟨S, hgen, ?_, ?_⟩
  · rw [mapOpt_length hS, List.length_range, numFrames_of_le h]
  · intro frame hfr
    obtain ⟨i, -, hfi⟩ := mapOpt_mem hS hfr
    obtain ⟨spec, hs, hlen⟩ := getSpectrum_pow2 (frameAt buffer 1024 512 i) 10
    rw [← h1024] at hs
    have hlen5 : spec.length = 512 := by omega
    simp only [hs] at hfi
    have hframe := Option.some.inj hfi
    subst hframe
    constructor
    · rw [List.length_map, hlen5]
    · intro v hv
      obtain ⟨m, -, hm⟩ := List.mem_map.mp hv
      subst hm
      exact ⟨le_max_left 0 _, max_le zero_le_one (min_le_left 1 _)⟩

/-- Witness for C2 at the concrete buffer of 1024 zero samples. -/
theorem spectrogram_shape_C2_witness :
    ∃ S, generateSpectrogram (List.replicate 1024 (0 : ℝ)) 1024 512 = some S ∧
      S.length = ((List.replicate 1024 (0 : ℝ)).length - 1024) / 512 + 1 ∧
      ∀ frame ∈ S, frame.length = 512 ∧ ∀ v ∈ frame, 0 ≤ v ∧ v ≤ 1 :=
  spectrogram_shape_C2 (List.replicate 1024 (0 : ℝ))
    (by rw [List.length_replicate])

/-- C3 (spectrogram value formula): every emitted spectrogram cell is
exactly the magnitude of the corresponding `getSpectrum` frequency bin
converted to decibels as `20·log10(m + 1e-10)` and normalized/clamped
into `[0,1]` as `(db + 100) / 100` — the code equals, frame by frame,
the map of the spec's formula `specCellValue` over the spectrum of each
frame. -/
theorem spectrogram_cell_formula_C3 (audioBuffer : List ℝ) (fftSize hopSize : ℕ) :
    generateSpectrogram audioBuffer fftSize hopSize =
      mapOpt (fun i =>
          Option.map (fun spectrum => spectrum.map specCellValue)
            (getSpectrum (frameAt audioBuffer fftSize hopSize i) fftSize))
        (List.range (numFrames audioBuffer.length fftSize hopSize)) := by
  unfold generateSpectrogram
  congr 1
  funext i
  cases getSpectrum (frameAt audioBuffer fftSize hopSize i) fftSize <;>
    simp [Option.map, specCellValue, specClamp01, specLog10]

/-- C9 (spectrum input truncation): `getSpectrum` ignores every sample
past index `fftSize − 1`; it equals `getSpectrum` of the length-`fftSize`
prefix, because the pad step copies at most `fftSize` samples. -/
theorem spectrum_truncation_C9 (samples : List ℝ) (fftSize : ℕ) :
    getSpectrum samples fftSize = getSpectrum (samples.take fftSize) fftSize := by
  have hpad : padToPowerOfTwo (samples.take fftSize) fftSize
      = padToPowerOfTwo samples fftSize := by
    simp only [padToPowerOfTwo, List.take_take, min_self, List.length_take]
    have : fftSize - min fftSize samples.length = fftSize - samples.length := by
      omega
    rw [this]
  rw [getSpectrum_eq, getSpectrum_eq, hpad]

/-- C6 counterexample: `fftSize = 0` is not a power of two, yet
`getSpectrum` does not fail on it — it returns the empty spectrum
(`padToPowerOfTwo` builds an empty buffer, the FFT of `[]` is `[]`, and
`slice(0, 0)` of it is `[]`).  The claimed `InvalidInput` failure for
every non-power-of-two `fftSize` therefore does not hold. -/
theorem fftSize_validation_C6_counterexample :
    getSpectrum [(0 : ℝ)] 0 = some [] :=
  getSpectrum_zero [(0 : ℝ)]

/-- C6 amended: `getSpectrum` performs no `fftSize` validation at all.
It returns a spectrum exactly when `fftSize` is `0` (the empty spectrum)
or a power of two; for any other `fftSize` the recursive `fft` aborts on
an out-of-range element access — an untyped runtime `TypeError`, not a
typed `InvalidInput` failure. -/
theorem fftSize_validation_C6_amended (samples : List ℝ) (fftSize : ℕ) :
    ((∃ spec, getSpectrum samples fftSize = some spec) ↔
      fftSize = 0 ∨ ∃ k, fftSize = 2 ^ k) ∧
    getSpectrum samples 0 = some [] := by
  refine ⟨⟨?_, ?_⟩, getSpectrum_zero samples⟩
  · rintro ⟨spec, hspec⟩
    by_contra hcon
    push_neg at hcon
    obtain ⟨h0, hnp⟩ := hcon
    have h1 : fftSize ≠ 1 := fun h => hnp 0 (by simpa using h)
    have hlen : ((applyHannWindow (padToPowerOfTwo samples fftSize)).map
        (fun sample => Complex.mk sample 0)).length = fftSize := by
      simp [length_applyHannWindow, length_padToPowerOfTwo]
    have hnone : fft ((applyHannWindow (padToPowerOfTwo samples fftSize)).map
        (fun sample => Complex.mk sample 0)) = none :=
      fft_not_pow2 fftSize _ (le_of_eq hlen) (by omega) (by rw [hlen]; exact hnp)
    rw [getSpectrum_eq, hnone] at hspec
    exact absurd hspec (by simp)
  · rintro (rfl | ⟨k, rfl⟩)
    · exact ⟨[], getSpectrum_zero samples⟩
    · obtain ⟨spec, hs, -⟩ := getSpectrum_pow2 samples k
      exact ⟨spec, hs⟩

/-! ## Behaviour of the media store -/

theorem filterExisting_eq {s : StoreState} (hs : s.statFails = false) :
    ∀ l : List Recording,
      filterExisting s l = .ok (l.filter (fun r => s.files.contains r.uri)) := by
  intro l
  induction l with
  | nil => rfl
  | cons r rest ih =>
    simp only [filterExisting, hs, Bool.false_eq_true, if_false, ih,
      List.filter_cons]

theorem getRecordings_entries {s : StoreState} {recs : List Recording}
    (hr : s.readFails = false) (hst : s.statFails = false)
    (hidx : s.idx = .entries recs) :
    getRecordings s =
      (recs.filter (fun r => s.files.contains r.uri),
        if (recs.filter (fun r => s.files.contains r.uri)).length < recs.length
        then { s with idx := .entries (recs.filter (fun r => s.files.contains r.uri)) }
        else s) := by
  simp only [getRecordings, getRecordingsInner, hr, Bool.false_eq_true, if_false,
    hidx, filterExisting_eq hst]
  split_ifs <;> rfl

/-- A store whose entries all have existing files is left unchanged by
`getRecordings`, which returns exactly the stored list. -/
theorem getRecordings_stable {s : StoreState} {recs : List Recording}
    (hr : s.readFails = false) (hst : s.statFails = false)
    (hidx : s.idx = .entries recs)
    (hall : ∀ r ∈ recs, s.files.contains r.uri = true) :
    getRecordings s = (recs, s) := by
  rw [getRecordings_entries hr hst hidx, List.filter_eq_self.mpr hall,
    if_neg (lt_irrefl _)]

/-- Structure of a successful `saveRecording` run: the copy found its
source, the index was readable and parse-able, the destination file was
added, and the returned record (the defaults spread with the caller's
metadata) was prepended to the stored list. -/
theorem saveRecording_ok_spec {uri : String} {metadata : RecordingPatch}
    {freshId ts iso : String} {s s1 : StoreState} {e : Recording}
    (h : saveRecording uri metadata freshId ts iso s = (.ok e, s1)) :
    ∃ old : List Recording,
      (s.idx = .entries old ∨ (s.idx = .absent ∧ old = [])) ∧
      s1 = ⟨.entries (e :: old),
            (RECORDINGS_DIRECTORY ++ ("stetho-" ++ ts ++ ".m4a")) :: s.files,
            s.readFails, s.statFails⟩ ∧
      s.readFails = false ∧
      e = spreadRecording
        ⟨freshId, "stetho-" ++ ts ++ ".m4a",
         RECORDINGS_DIRECTORY ++ ("stetho-" ++ ts ++ ".m4a"), iso,
         metadata.duration.getD 0, metadata.size.getD 0, none, "stethoscope"⟩
        metadata := by
  simp only [saveRecording] at h
  by_cases hc : s.files.contains uri = true
  · rw [if_pos hc] at h
    by_cases hrf : s.readFails = true
    · rw [if_pos hrf] at h
      exact absurd (congrArg Prod.fst h) (by simp)
    · rw [if_neg hrf] at h
      have hrf' : s.readFails = false := by simpa using hrf
      cases hidx : s.idx <;> rw [hidx] at h
      · -- absent
        obtain rfl := Except.ok.inj (congrArg Prod.fst h)
        obtain rfl := congrArg Prod.snd h
        refine ⟨[], Or.inr ⟨rfl, rfl⟩, ?_, hrf', rfl⟩
        cases s
        simp_all
      · -- corrupt
        exact absurd (congrArg Prod.fst h) (by simp)
      · -- entries
        rename_i existing
        obtain rfl := Except.ok.inj (congrArg Prod.fst h)
        obtain rfl := congrArg Prod.snd h
        refine ⟨existing, Or.inl rfl, ?_, hrf', rfl⟩
        cases s
        simp_all
  · rw [if_neg hc] at h
    exact absurd (congrArg Prod.fst h) (by simp)

theorem runSaves_spec :
    ∀ (calls : List SaveCall) (s : StoreState) (rs : List Recording)
      (s' : StoreState) (old : List Recording),
      runSaves calls s = (.ok rs, s') → s.idx = .entries old →
      (∀ c ∈ calls, c.metadata.id = none) →
      (∀ c ∈ calls, c.metadata.uri = none) →
      s'.idx = .entries (rs.reverse ++ old) ∧
      rs.map Recording.id = calls.map SaveCall.freshId ∧
      s'.readFails = s.readFails ∧ s'.statFails = s.statFails ∧
      (∀ u ∈ s.files, u ∈ s'.files) ∧
      (∀ r ∈ rs, s'.files.contains r.uri = true) := by
  intro calls
  induction calls with
  | nil =>
    intro s rs s' old hrun hidx _ _
    simp only [runSaves, Prod.mk.injEq] at hrun
    obtain ⟨h1, rfl⟩ := hrun
    obtain rfl := (Except.ok.inj h1).symm
    exact ⟨by simpa using hidx, rfl, rfl, rfl, fun u hu => hu, by simp⟩
  | cons c rest ih =>
    intro s rs s' old hrun hidx hmid hmuri
    simp only [runSaves] at hrun
    cases hsv : saveRecording c.uri c.metadata c.freshId c.ts c.iso s with
    | mk res1 s1 =>
    rw [hsv] at hrun
    cases res1 with
    | error err => exact absurd (congrArg Prod.fst hrun) (by simp)
    | ok r =>
      have hrun' : (match runSaves rest s1 with
          | (Except.ok rs, s2) => (Except.ok (r :: rs), s2)
          | (Except.error e, s2) => (Except.error e, s2)) = (.ok rs, s') := hrun
      cases hrun2 : runSaves rest s1 with
      | mk res2 s2 =>
      rw [hrun2] at hrun'
      cases res2 with
      | error err => exact absurd (congrArg Prod.fst hrun') (by simp)
      | ok rs2 =>
        simp only [Prod.mk.injEq] at hrun'
        obtain ⟨h1, rfl⟩ := hrun'
        obtain rfl := (Except.ok.inj h1).symm
        obtain ⟨oldS, hdisj, hs1, hrf, hre⟩ := saveRecording_ok_spec hsv
        have holds : oldS = old := by
          rcases hdisj with hd | ⟨hd, -⟩
          · rw [hidx] at hd
            exact (IndexVal.entries.inj hd).symm
          · rw [hidx] at hd
            exact absurd hd (by simp)
        subst holds
        have hids : r.id = c.freshId := by
          rw [hre]
          simp [spreadRecording, hmid c (List.mem_cons_self c rest)]
        have huri : r.uri =
            RECORDINGS_DIRECTORY ++ ("stetho-" ++ c.ts ++ ".m4a") := by
          rw [hre]
          simp [spreadRecording, hmuri c (List.mem_cons_self c rest)]
        have hidx1 : s1.idx = .entries (r :: oldS) := by rw [hs1]
        obtain ⟨i1, i2, i3, i4, i5, i6⟩ := ih s1 rs2 s2 (r :: oldS) hrun2 hidx1
          (fun x hx => hmid x (List.mem_cons_of_mem c hx))
          (fun x hx => hmuri x (List.mem_cons_of_mem c hx))
        refine ⟨?_, ?_, ?_, ?_, ?_, ?_⟩
        · rw [i1]
          simp
        · simp only [List.map_cons, i2, hids]
        · rw [i3, hs1]
        · rw [i4, hs1]
        · intro u hu
          apply i5
          rw [hs1]
          exact List.mem_cons_of_mem _ hu
        · intro x hx
          rcases List.mem_cons.mp hx with rfl | hxr
          · rw [List.elem_iff]
            apply i5
            rw [hs1, huri]
            exact List.mem_cons_self _ _
          · exact i6 x hxr

/-! ## Claims about the media store -/

/-- C10 (list never fails): whenever the body of `getRecordings` raises
an environment error (index read failure, index parse failure, or a
failing file stat), the error is swallowed and the empty sequence is
returned with the store untouched; by its type, `getRecordings` has no
failing outcome at its public interface. -/
theorem list_never_fails_C10 (s : StoreState) (err : JsError)
    (h : getRecordingsInner s = .error err) : getRecordings s = ([], s) := by
  simp only [getRecordings, h]

/-- Witness for C10 at a store whose persisted index is corrupt. -/
theorem list_never_fails_C10_witness :
    getRecordingsInner ⟨.corrupt, [], false, false⟩ = .error .parseError ∧
    getRecordings ⟨.corrupt, [], false, false⟩ =
      ([], ⟨.corrupt, [], false, false⟩) :=
  ⟨rfl, list_never_fails_C10 ⟨.corrupt, [], false, false⟩ .parseError rfl⟩

/-- C5 (save failure atomicity): `saveRecording` on a temp-file path
that does not exist fails with the store's I/O error
(`Error('Failed to save recording')`), and the whole store state — in
particular the metadata index — is identical to the state before the
call. -/
theorem save_failure_atomic_C5 (s : StoreState) (uri : String)
    (metadata : RecordingPatch) (freshId ts iso : String)
    (h : s.files.contains uri = false) :
    saveRecording uri metadata freshId ts iso s = (.error .ioError, s) := by
  simp only [saveRecording, h, Bool.false_eq_true, if_false]

/-- Witness for C5 at a concrete store with no files. -/
theorem save_failure_atomic_C5_witness :
    (([] : List String).contains "missing.m4a" = false) ∧
    saveRecording "missing.m4a" {} "id0" "0" "t0"
        ⟨.entries [], [], false, false⟩ =
      (.error .ioError, ⟨.entries [], [], false, false⟩) :=
  ⟨rfl, save_failure_atomic_C5 ⟨.entries [], [], false, false⟩
    "missing.m4a" {} "id0" "0" "t0" rfl⟩

/-- C1 (reconciliation on read): after a successful save of an entry
followed by external deletion of that entry's backing file, the next
`getRecordings` call excludes the entry from its result, rewrites the
stored index so it no longer references the entry, and a second
`getRecordings` call returns the same result and state (the
reconciliation is idempotent). -/
theorem reconciliation_C1 (s : StoreState) (uri : String)
    (metadata : RecordingPatch) (freshId ts iso : String) (e : Recording)
    (s1 : StoreState)
    (hsave : saveRecording uri metadata freshId ts iso s = (.ok e, s1))
    (hstat : s.statFails = false) :
    e ∉ (getRecordings (removeFile e.uri s1)).1 ∧
    indexMentions e (getRecordings (removeFile e.uri s1)).2 = false ∧
    getRecordings ((getRecordings (removeFile e.uri s1)).2) =
      getRecordings (removeFile e.uri s1) := by
  obtain ⟨old, -, rfl, hrf, -⟩ := saveRecording_ok_spec hsave
  set s2 : StoreState :=
    removeFile e.uri
      ⟨.entries (e :: old),
       (RECORDINGS_DIRECTORY ++ ("stetho-" ++ ts ++ ".m4a")) :: s.files,
       s.readFails, s.statFails⟩ with hs2
  have hidx2 : s2.idx = .entries (e :: old) := rfl
  have hrf2 : s2.readFails = false := hrf
  have hst2 : s2.statFails = false := hstat
  have hmem : e.uri ∉ s2.files := by
    intro hmem
    rw [hs2] at hmem
    simp only [removeFile, List.mem_filter] at hmem
    exact absurd hmem.2 (by simp)
  have hnc : s2.files.contains e.uri = false := by
    cases hcc : s2.files.contains e.uri
    · rfl
    · exact absurd (List.elem_iff.mp hcc) hmem
  have hfe : (e :: old).filter (fun r => s2.files.contains r.uri)
      = old.filter (fun r => s2.files.contains r.uri) := by
    rw [List.filter_cons]
    simp [hnc, hmem]
  have hlt : ((e :: old).filter (fun r => s2.files.contains r.uri)).length
      < (e :: old).length := by
    rw [hfe, List.length_cons]
    exact Nat.lt_succ_of_le (List.length_filter_le _ _)
  have hget : getRecordings s2 =
      ((e :: old).filter (fun r => s2.files.contains r.uri),
       { s2 with idx :=
          IndexVal.entries ((e :: old).filter (fun r => s2.files.contains r.uri)) }) := by
    rw [getRecordings_entries hrf2 hst2 hidx2, if_pos hlt]
  have henot : e ∉ (e :: old).filter (fun r => s2.files.contains r.uri) := by
    intro hin
    have hp := (List.mem_filter.mp hin).2
    rw [hnc] at hp
    exact absurd hp (by simp)
  refine ⟨?_, ?_, ?_⟩
  · rw [hget]
    exact henot
  · rw [hget]
    show ((e :: old).filter (fun r => s2.files.contains r.uri)).contains e = false
    cases hcc : ((e :: old).filter (fun r => s2.files.contains r.uri)).contains e
    · rfl
    · exact absurd (List.elem_iff.mp hcc) henot
  · rw [hget]
    apply getRecordings_stable
    · exact hrf2
    · exact hst2
    · rfl
    · exact fun r hr => (List.mem_filter.mp hr).2

/-- Witness for C1: a concrete save into an empty store followed by
deletion of the saved backing file. -/
theorem reconciliation_C1_witness :
    (⟨"id0", "stetho-7.m4a", "stethoscope_recordings/stetho-7.m4a", "t0",
        0, 0, none, "stethoscope"⟩ : Recording) ∉
      (getRecordings (removeFile "stethoscope_recordings/stetho-7.m4a"
        ⟨.entries [⟨"id0", "stetho-7.m4a", "stethoscope_recordings/stetho-7.m4a",
            "t0", 0, 0, none, "stethoscope"⟩],
         ["stethoscope_recordings/stetho-7.m4a", "tmp.m4a"], false, false⟩)).1 ∧
    indexMentions
      ⟨"id0", "stetho-7.m4a", "stethoscope_recordings/stetho-7.m4a", "t0",
        0, 0, none, "stethoscope"⟩
      (getRecordings (removeFile "stethoscope_recordings/stetho-7.m4a"
        ⟨.entries [⟨"id0", "stetho-7.m4a", "stethoscope_recordings/stetho-7.m4a",
            "t0", 0, 0, none, "stethoscope"⟩],
         ["stethoscope_recordings/stetho-7.m4a", "tmp.m4a"], false, false⟩)).2
      = false ∧
    getRecordings ((getRecordings (removeFile "stethoscope_recordings/stetho-7.m4a"
        ⟨.entries [⟨"id0", "stetho-7.m4a", "stethoscope_recordings/stetho-7.m4a",
            "t0", 0, 0, none, "stethoscope"⟩],
         ["stethoscope_recordings/stetho-7.m4a", "tmp.m4a"], false, false⟩)).2) =
      getRecordings (removeFile "stethoscope_recordings/stetho-7.m4a"
        ⟨.entries [⟨"id0", "stetho-7.m4a", "stethoscope_recordings/stetho-7.m4a",
            "t0", 0, 0, none, "stethoscope"⟩],
         ["stethoscope_recordings/stetho-7.m4a", "tmp.m4a"], false, false⟩) :=
  reconciliation_C1 ⟨.absent, ["tmp.m4a"], false, false⟩ "tmp.m4a" {} "id0" "7" "t0"
    ⟨"id0", "stetho-7.m4a", "stethoscope_recordings/stetho-7.m4a", "t0",
      0, 0, none, "stethoscope"⟩
    ⟨.entries [⟨"id0", "stetho-7.m4a", "stethoscope_recordings/stetho-7.m4a",
        "t0", 0, 0, none, "stethoscope"⟩],
     ["stethoscope_recordings/stetho-7.m4a", "tmp.m4a"], false, false⟩
    rfl rfl

/-- C4 counterexample: the generated identifiers are nondeterministic
draws (`generateUUID()` from `Math.random`, and the record screen even
uses `Date.now()`, which repeats within a millisecond), and `save`
performs no uniqueness check against existing entries.  A run of two
successful saves whose draws coincide returns two entries with the same
`id` (and `list()` still returns both), so the claimed unconditional
pairwise distinctness fails. -/
theorem save_id_uniqueness_C4_counterexample :
    (runSaves
        [⟨"a.m4a", {}, "dup-id", "1", "t1"⟩, ⟨"b.m4a", {}, "dup-id", "2", "t2"⟩]
        ⟨.entries [], ["a.m4a", "b.m4a"], false, false⟩).1.map
      (List.map Recording.id) = .ok ["dup-id", "dup-id"] ∧
    (getRecordings
        (runSaves
          [⟨"a.m4a", {}, "dup-id", "1", "t1"⟩, ⟨"b.m4a", {}, "dup-id", "2", "t2"⟩]
          ⟨.entries [], ["a.m4a", "b.m4a"], false, false⟩).2).1.length = 2 :=
  ⟨rfl, rfl⟩

/-- C4 amended: for every sequence of successful `saveRecording` calls
under the single-writer discipline, starting from an empty index with a
working environment and seeds that do not override `id` or `uri`, the
returned entries' ids are pairwise distinct PROVIDED the id-generator
draws of the calls are pairwise distinct, and `getRecordings` afterwards
returns exactly N entries (absent external deletion). -/
theorem save_id_uniqueness_C4_amended (calls : List SaveCall) (s : StoreState)
    (rs : List Recording) (s1 : StoreState)
    (hidx : s.idx = .entries []) (hread : s.readFails = false)
    (hstat : s.statFails = false)
    (hid : ∀ c ∈ calls, c.metadata.id = none)
    (huri : ∀ c ∈ calls, c.metadata.uri = none)
    (hdistinct : (calls.map SaveCall.freshId).Pairwise Ne)
    (hrun : runSaves calls s = (.ok rs, s1)) :
    (rs.map Recording.id).Pairwise Ne ∧
    (getRecordings s1).1.length = calls.length := by
  obtain ⟨i1, i2, i3, i4, -, i6⟩ := runSaves_spec calls s rs s1 [] hrun hidx hid huri
  rw [List.append_nil] at i1
  refine ⟨by rw [i2]; exact hdistinct, ?_⟩
  have hall : ∀ r ∈ rs.reverse, s1.files.contains r.uri = true :=
    fun r hr => i6 r (List.mem_reverse.mp hr)
  have hlen : rs.length = calls.length := by
    have hl := congrArg List.length i2
    simpa using hl
  rw [getRecordings_stable (i3.trans hread) (i4.trans hstat) i1 hall]
  simp [hlen]

/-- Witness for the amended C4 at two concrete saves with distinct
generator draws. -/
theorem save_id_uniqueness_C4_amended_witness :
    (([⟨"id-A", "stetho-1.m4a", "stethoscope_recordings/stetho-1.m4a", "t1",
          0, 0, none, "stethoscope"⟩,
        ⟨"id-B", "stetho-2.m4a", "stethoscope_recordings/stetho-2.m4a", "t2",
          0, 0, none, "stethoscope"⟩] : List Recording).map
        Recording.id).Pairwise Ne ∧
    (getRecordings
        ⟨.entries [⟨"id-B", "stetho-2.m4a",
            "stethoscope_recordings/stetho-2.m4a", "t2", 0, 0, none, "stethoscope"⟩,
          ⟨"id-A", "stetho-1.m4a", "stethoscope_recordings/stetho-1.m4a", "t1",
            0, 0, none, "stethoscope"⟩],
         ["stethoscope_recordings/stetho-2.m4a",
          "stethoscope_recordings/stetho-1.m4a", "a.m4a", "b.m4a"],
         false, false⟩).1.length = 2 :=
  save_id_uniqueness_C4_amended
    [⟨"a.m4a", {}, "id-A", "1", "t1"⟩, ⟨"b.m4a", {}, "id-B", "2", "t2"⟩]
    ⟨.entries [], ["a.m4a", "b.m4a"], false, false⟩
    [⟨"id-A", "stetho-1.m4a", "stethoscope_recordings/stetho-1.m4a", "t1",
        0, 0, none, "stethoscope"⟩,
      ⟨"id-B", "stetho-2.m4a", "stethoscope_recordings/stetho-2.m4a", "t2",
        0, 0, none, "stethoscope"⟩]
    ⟨.entries [⟨"id-B", "stetho-2.m4a",
        "stethoscope_recordings/stetho-2.m4a", "t2", 0, 0, none, "stethoscope"⟩,
      ⟨"id-A", "stetho-1.m4a", "stethoscope_recordings/stetho-1.m4a", "t1",
        0, 0, none, "stethoscope"⟩],
     ["stethoscope_recordings/stetho-2.m4a",
      "stethoscope_recordings/stetho-1.m4a", "a.m4a", "b.m4a"],
     false, false⟩
    rfl rfl rfl (by decide) (by decide) (by decide) rfl

/-- C8 counterexample: `updateRecording` applies a plain object spread,
so a patch that carries `id` or `createdAt` keys overwrites those
fields — they are not immutable.  Updating the single entry `"A"` with
`{id: "B", createdAt: "2099…"}` stores the entry under id `"B"` with
the new `createdAt` (and the function then even fails to find the
updated record under the old id). -/
theorem update_immutability_C8_counterexample :
    (updateRecording "A" { id := some "B", createdAt := some "2099-01-01" }
        ⟨.entries [⟨"A", "f.m4a", "u0", "2024-01-01", 10, 5, none, "stethoscope"⟩],
         ["u0"], false, false⟩).2.idx =
      .entries [⟨"B", "f.m4a", "u0", "2099-01-01", 10, 5, none, "stethoscope"⟩] ∧
    (updateRecording "A" { id := some "B", createdAt := some "2099-01-01" }
        ⟨.entries [⟨"A", "f.m4a", "u0", "2024-01-01", 10, 5, none, "stethoscope"⟩],
         ["u0"], false, false⟩).1 = none := by
  decide

/-- C8 amended: `updateRecording` reconciles via `getRecordings`, then
rewrites the index with the matching entry replaced by the JavaScript
spread of the entry with the patch — every key present in the patch
overwrites the entry's field, `id` and `createdAt` included; all other
entries are unchanged (pointwise map).  When no entry has the given id
the call does not fail: it rewrites the reconciled index unchanged and
returns nothing (there is no `NotFound`). -/
theorem update_spread_C8_amended (s : StoreState) (i : String)
    (p : RecordingPatch) :
    (updateRecording i p s).2.idx =
      .entries ((getRecordings s).1.map
        (fun r => if r.id = i then spreadRecording r p else r)) ∧
    (updateRecording i p s).1 =
      ((getRecordings s).1.map
        (fun r => if r.id = i then spreadRecording r p else r)).find?
        (fun r => r.id == i) ∧
    (∀ r : Recording, (spreadRecording r p).id = p.id.getD r.id ∧
      (spreadRecording r p).createdAt = p.createdAt.getD r.createdAt) ∧
    ((∀ r ∈ (getRecordings s).1, r.id ≠ i) →
      (updateRecording i p s).1 = none ∧
      (updateRecording i p s).2.idx = .entries (getRecordings s).1) := by
  refine ⟨rfl, rfl, fun r => ⟨rfl, rfl⟩, ?_⟩
  intro hno
  have hmap : (getRecordings s).1.map
      (fun r => if r.id = i then spreadRecording r p else r)
      = (getRecordings s).1 := by
    rw [List.map_congr_left (fun r hr => if_neg (hno r hr)), List.map_id']
  constructor
  · rw [show (updateRecording i p s).1 =
        ((getRecordings s).1.map
          (fun r => if r.id = i then spreadRecording r p else r)).find?
          (fun r => r.id == i) from rfl, hmap]
    exact List.find?_eq_none.mpr (fun x hx => by simpa using hno x hx)
  · rw [show (updateRecording i p s).2.idx =
        .entries ((getRecordings s).1.map
          (fun r => if r.id = i then spreadRecording r p else r)) from rfl, hmap]

/-- Witness for the amended C8: updating an id that no entry has is a
silent no-op on a concrete store. -/
theorem update_spread_C8_amended_witness :
    (updateRecording "Z" {}
        ⟨.entries [⟨"A", "f.m4a", "u0", "c0", 0, 0, none, "stethoscope"⟩],
         ["u0"], false, false⟩).1 = none ∧
    (updateRecording "Z" {}
        ⟨.entries [⟨"A", "f.m4a", "u0", "c0", 0, 0, none, "stethoscope"⟩],
         ["u0"], false, false⟩).2.idx =
      .entries [⟨"A", "f.m4a", "u0", "c0", 0, 0, none, "stethoscope"⟩] := by
  have h := (update_spread_C8_amended
    ⟨.entries [⟨"A", "f.m4a", "u0", "c0", 0, 0, none, "stethoscope"⟩],
     ["u0"], false, false⟩ "Z" {}).2.2.2 (by decide)
  exact ⟨h.1, h.2.trans (by decide)⟩

/-! ## Claims about the recording lifecycle -/

/-- C7 counterexample: on the record screen, invoking the pause/resume
handler with no active recording (`Idle`) returns silently — the state
is unchanged but no `InvalidState` (or any) failure is signalled; and
invoking the same handler while `Recording` does not fail either — it
performs a pause (a state change), since there is no separate `resume`
rejected in that state. -/
theorem pause_invalid_state_C7_counterexample :
    handlePauseRecording ⟨false, false, false, false⟩ =
      (⟨false, false, false, false⟩, none) ∧
    handlePauseRecording ⟨true, true, false, true⟩ =
      (⟨true, true, true, false⟩, none) :=
  ⟨rfl, rfl⟩

/-- C7 amended: the pause/resume handler is a silent no-op from `Idle`
(state unchanged, no error), and never surfaces an error in any state;
the wrong-state lifecycle call that does fail is the audio service's
`stopRecording`, which with no active recording throws
`Error('No active recording')` and leaves its state unchanged. -/
theorem pause_lifecycle_C7_amended :
    (∀ s : RecordScreenState, s.hasRecording = false →
      handlePauseRecording s = (s, none)) ∧
    (∀ s : RecordScreenState, (handlePauseRecording s).2 = none) ∧
    (∀ (getSize : String → ℚ) (a : AudioServiceState), a.recording = none →
      stopRecording getSize a = (.error .noActiveRecording, a)) := by
  refine ⟨?_, ?_, ?_⟩
  · intro s hs
    simp [handlePauseRecording, hs]
  · intro s
    unfold handlePauseRecording
    split_ifs <;> rfl
  · intro getSize a ha
    simp [stopRecording, ha]

/-- Witness for the amended C7 at the idle screen state and an idle
audio service. -/
theorem pause_lifecycle_C7_amended_witness :
    handlePauseRecording ⟨false, true, false, false⟩ =
      (⟨false, true, false, false⟩, none) ∧
    stopRecording (fun _ => 0) ⟨none, 0, 0⟩ =
      (.error .noActiveRecording, ⟨none, 0, 0⟩) :=
  ⟨pause_lifecycle_C7_amended.1 ⟨false, true, false, false⟩ rfl,
   pause_lifecycle_C7_amended.2.2 (fun _ => 0) ⟨none, 0, 0⟩ rfl⟩

end Stetho
